import Mathlib

/-!
Verification of the block-import and state-access core of the
`jdetychey/polkadot` repository (substrate client and generic
block/header/extrinsic model), as a shallow embedding in Lean 4.

Byte strings are modelled as `List Nat` with every byte `< 256`.
Fixed-width integer fields (hashes, numbers, account ids, signatures)
are modelled as `Nat` values bounded by the width of the field; the
generic type parameters of the Rust code are instantiated at the widths
the demo runtime uses (Hash/AccountId = 32 bytes, Number/Index = u64,
Signature = 64 bytes, a generic scalar `Call` = u64, DigestItem = byte
vector).
-/

/-- Modelled from the spec: fixed-size integers are encoded little-endian at
their natural width (codec crate, not under src/).  `encFixLE w n` is the
`w`-byte little-endian encoding of `n` (truncated mod `256 ^ w`). -/
def encFixLE : Nat → Nat → List Nat
  | 0, _ => []
  | w + 1, n => n % 256 :: encFixLE w (n / 256)

/-- Modelled from the spec: little-endian fixed-width decode.  Reads `w`
bytes from the input stream and returns the decoded value together with the
unconsumed remainder; fails when fewer than `w` bytes are available. -/
def decFixLE : Nat → List Nat → Option (Nat × List Nat)
  | 0, input => some (0, input)
  | _ + 1, [] => none
  | w + 1, b :: rest => (decFixLE w rest).map fun p => (b + 256 * p.1, p.2)

theorem encFixLE_length (w n : Nat) : (encFixLE w n).length = w := by
  induction w generalizing n with
  | zero => rfl
  | succ w ih => simp [encFixLE, ih]

theorem mod_mul_split (a b c : Nat) (hb : 0 < b) (hc : 0 < c) :
    a % (b * c) = a % b + b * (a / b % c) := by
  have h1 : a = (a % b + b * (a / b % c)) + b * c * (a / b / c) := by
    have hb1 : b * (a / b) + a % b = a := Nat.div_add_mod a b
    have hc1 : c * (a / b / c) + a / b % c = a / b := Nat.div_add_mod (a / b) c
    calc a = b * (a / b) + a % b := hb1.symm
    _ = b * (c * (a / b / c) + a / b % c) + a % b := by rw [hc1]
    _ = (a % b + b * (a / b % c)) + b * c * (a / b / c) := by ring
  have hlt : a % b + b * (a / b % c) < b * c := by
    have h2 : a % b < b := Nat.mod_lt _ hb
    have h3 : a / b % c < c := Nat.mod_lt _ hc
    have h4 : a / b % c + 1 ≤ c := h3
    have : b * (a / b % c + 1) ≤ b * c := Nat.mul_le_mul_left b h4
    have : b * (a / b % c) + b ≤ b * c := by
      have hh : b * (a / b % c + 1) = b * (a / b % c) + b := by ring
      omega
    omega
  calc a % (b * c) = ((a % b + b * (a / b % c)) + b * c * (a / b / c)) % (b * c) := by
        rw [← h1]
  _ = (a % b + b * (a / b % c)) % (b * c) := Nat.add_mul_mod_self_left _ _ _
  _ = a % b + b * (a / b % c) := Nat.mod_eq_of_lt hlt

theorem decFixLE_encFixLE (w n : Nat) (rest : List Nat) :
    decFixLE w (encFixLE w n ++ rest) = some (n % 256 ^ w, rest) := by
  induction w generalizing n with
  | zero => simp [encFixLE, decFixLE, Nat.mod_one]
  | succ w ih =>
    have hsplit : n % 256 ^ (w + 1) = n % 256 + 256 * (n / 256 % 256 ^ w) := by
      have h256 : (256 : Nat) ^ (w + 1) = 256 * 256 ^ w := by ring
      rw [h256]
      exact mod_mul_split n 256 (256 ^ w) (by norm_num) (Nat.pos_pow_of_pos _ (by norm_num))
    simp [encFixLE, decFixLE, ih, hsplit]

theorem decFixLE_encFixLE_of_lt (w n : Nat) (rest : List Nat) (h : n < 256 ^ w) :
    decFixLE w (encFixLE w n ++ rest) = some (n, rest) := by
  rw [decFixLE_encFixLE, Nat.mod_eq_of_lt h]

/-- Modelled from the spec: `Vec<u8>` wire format (codec crate, not under
src/): a 32-bit little-endian byte-length prefix followed by the raw bytes. -/
def encBytes (b : List Nat) : List Nat := encFixLE 4 b.length ++ b

/-- Modelled from the spec: `Vec<u8>` decode.  Reads the 32-bit byte-length
prefix, then takes that many bytes from the stream. -/
def decBytes (input : List Nat) : Option (List Nat × List Nat) :=
  match decFixLE 4 input with
  | none => none
  | some (n, rest) =>
    if n ≤ rest.length then some (rest.take n, rest.drop n) else none

theorem decBytes_encBytes (b rest : List Nat) (h : b.length < 256 ^ 4) :
    decBytes (encBytes b ++ rest) = some (b, rest) := by
  unfold encBytes decBytes
  rw [List.append_assoc, decFixLE_encFixLE_of_lt 4 b.length (b ++ rest) h]
  simp

theorem encBytes_ne_nil (b : List Nat) : encBytes b ≠ [] := by
  unfold encBytes encFixLE
  simp

/-- Modelled from the spec: `Vec<T>` wire format (codec crate, not under
src/): a 32-bit little-endian prefix holding the total byte length of the
payload, followed by the concatenated element encodings. -/
def encSeq (encT : α → List Nat) (xs : List α) : List Nat :=
  encFixLE 4 ((xs.map encT).flatten).length ++ (xs.map encT).flatten

/-- Modelled from the spec: decode elements of a `Vec<T>` payload until the
byte budget is exhausted.  The fuel argument bounds the number of elements by
the number of payload bytes; each element must consume at least one byte. -/
def decItems (decT : List Nat → Option (α × List Nat)) : Nat → List Nat → Option (List α)
  | _, [] => some []
  | 0, _ :: _ => none
  | fuel + 1, b :: buf =>
    match decT (b :: buf) with
    | none => none
    | some (t, rest) =>
      if rest.length < (b :: buf).length then
        (decItems decT fuel rest).map (t :: ·)
      else none

/-- Modelled from the spec: `Vec<T>` decode.  Reads the 32-bit byte-length
prefix, splits off that many payload bytes and decodes elements from the
payload until it is exhausted. -/
def decSeq (decT : List Nat → Option (α × List Nat)) (input : List Nat) :
    Option (List α × List Nat) :=
  match decFixLE 4 input with
  | none => none
  | some (n, rest) =>
    if n ≤ rest.length then
      (decItems decT n (rest.take n)).map fun xs => (xs, rest.drop n)
    else none

theorem decItems_nil (decT : List Nat → Option (α × List Nat)) (fuel : Nat) :
    decItems decT fuel [] = some [] := by
  cases fuel <;> rfl

theorem decItems_join (decT : List Nat → Option (α × List Nat))
    (encT : α → List Nat) (P : α → Prop)
    (hexact : ∀ x rest, P x → decT (encT x ++ rest) = some (x, rest))
    (hne : ∀ x, P x → encT x ≠ [])
    (xs : List α) (hxs : ∀ x ∈ xs, P x) :
    ∀ fuel, ((xs.map encT).flatten).length ≤ fuel →
      decItems decT fuel ((xs.map encT).flatten) = some xs := by
  induction xs with
  | nil => intro fuel _; simp [decItems_nil]
  | cons x xs ih =>
    intro fuel hfuel
    have hPx : P x := hxs x (by simp)
    have hnex : encT x ≠ [] := hne x hPx
    have hlen1 : 1 ≤ (encT x).length := by
      cases hencx : encT x with
      | nil => exact absurd hencx hnex
      | cons a l => simp
    have hjoin : ((x :: xs).map encT).flatten = encT x ++ (xs.map encT).flatten := by
      simp
    rw [hjoin] at hfuel ⊢
    have hfuel1 : 1 ≤ fuel := by
      have := List.length_append (encT x) ((xs.map encT).flatten)
      omega
    obtain ⟨f, rfl⟩ : ∃ f, fuel = f + 1 := ⟨fuel - 1, by omega⟩
    cases hel : encT x ++ (xs.map encT).flatten with
    | nil => exact absurd (List.append_eq_nil.mp hel).1 hnex
    | cons b buf =>
      have hdec : decT (b :: buf) = some (x, (xs.map encT).flatten) := by
        rw [← hel]; exact hexact x _ hPx
      have hrest : ((xs.map encT).flatten).length < (b :: buf).length := by
        have h1 : (b :: buf).length = (encT x).length + ((xs.map encT).flatten).length := by
          rw [← hel]; simp
        omega
      have hfrec : ((xs.map encT).flatten).length ≤ f := by
        have h1 : (b :: buf).length = (encT x).length + ((xs.map encT).flatten).length := by
          rw [← hel]; simp
        have h2 : (b :: buf).length ≤ f + 1 := by rw [hel] at hfuel; exact hfuel
        omega
      show decItems decT (f + 1) (b :: buf) = some (x :: xs)
      rw [decItems, hdec]
      simp only [hrest, if_pos]
      rw [ih (fun y hy => hxs y (by simp [hy])) f hfrec]
      rfl

theorem decSeq_encSeq (decT : List Nat → Option (α × List Nat))
    (encT : α → List Nat) (P : α → Prop)
    (hexact : ∀ x rest, P x → decT (encT x ++ rest) = some (x, rest))
    (hne : ∀ x, P x → encT x ≠ [])
    (xs : List α) (hxs : ∀ x ∈ xs, P x)
    (hlen : ((xs.map encT).flatten).length < 256 ^ 4) (rest : List Nat) :
    decSeq decT (encSeq encT xs ++ rest) = some (xs, rest) := by
  unfold encSeq decSeq
  rw [List.append_assoc,
    decFixLE_encFixLE_of_lt 4 ((xs.map encT).flatten).length ((xs.map encT).flatten ++ rest) hlen]
  simp only [List.length_append, Nat.le_add_right, if_pos, List.take_left, List.drop_left]
  rw [decItems_join decT encT P hexact hne xs hxs _ (Nat.le_refl _)]
  rfl

/-- The `Extrinsic` from src/substrate/runtime/primitives/src/generic.rs:
`{signed, index, function}`, with the generic parameters instantiated at
AccountId = 32-byte value, Index = u64, Call = u64 scalar. -/
structure Extrinsic where
  signed : Nat
  index : Nat
  function : Nat
deriving DecidableEq

/-- The `Slicable::encode` for `Extrinsic`: the concatenation of the encodings of
`signed`, `index` and `function`, in field order. -/
def Extrinsic.encode (e : Extrinsic) : List Nat :=
  encFixLE 32 e.signed ++ encFixLE 8 e.index ++ encFixLE 8 e.function

/-- The `Slicable::decode` for `Extrinsic`: sequential field decode. -/
def Extrinsic.decode (input : List Nat) : Option (Extrinsic × List Nat) :=
  match decFixLE 32 input with
  | none => none
  | some (signed, r1) =>
    match decFixLE 8 r1 with
    | none => none
    | some (index, r2) =>
      match decFixLE 8 r2 with
      | none => none
      | some (fn, r3) => some (⟨signed, index, fn⟩, r3)

/-- Field bounds under the chosen instantiation of the generic parameters. -/
def Extrinsic.valid (e : Extrinsic) : Prop :=
  e.signed < 256 ^ 32 ∧ e.index < 256 ^ 8 ∧ e.function < 256 ^ 8

theorem extrinsic_decode_encode (e : Extrinsic) (rest : List Nat) (h : e.valid) :
    Extrinsic.decode (e.encode ++ rest) = some (e, rest) := by
  obtain ⟨h1, h2, h3⟩ := h
  unfold Extrinsic.encode Extrinsic.decode
  rw [List.append_assoc, List.append_assoc, decFixLE_encFixLE_of_lt _ _ _ h1]
  simp only
  rw [decFixLE_encFixLE_of_lt _ _ _ h2]
  simp only
  rw [decFixLE_encFixLE_of_lt _ _ _ h3]

theorem extrinsic_encode_ne_nil (e : Extrinsic) : e.encode ≠ [] := by
  unfold Extrinsic.encode encFixLE
  simp

/-- The `UncheckedExtrinsic` from generic.rs: an `Extrinsic` together with a
signature (instantiated at a 64-byte value). -/
structure UncheckedExtrinsic where
  extrinsic : Extrinsic
  signature : Nat
deriving DecidableEq

/-- The `Slicable::encode` for `UncheckedExtrinsic`: a 32-bit prefix holding the
byte length of the rest, then the extrinsic and signature encodings.  The
source reserves four zero bytes and overwrites them with the length once
known; the result is the length prefix followed by the body. -/
def UncheckedExtrinsic.encode (u : UncheckedExtrinsic) : List Nat :=
  encFixLE 4 (u.extrinsic.encode ++ encFixLE 64 u.signature).length ++
    (u.extrinsic.encode ++ encFixLE 64 u.signature)

/-- The `Slicable::decode` for `UncheckedExtrinsic`: reads the u32 length prefix
and discards it (`_length_do_not_remove_me_see_above`), then decodes the
extrinsic and the signature. -/
def UncheckedExtrinsic.decode (input : List Nat) : Option (UncheckedExtrinsic × List Nat) :=
  match decFixLE 4 input with
  | none => none
  | some (_, r0) =>
    match Extrinsic.decode r0 with
    | none => none
    | some (extrinsic, r1) =>
      match decFixLE 64 r1 with
      | none => none
      | some (signature, r2) => some (⟨extrinsic, signature⟩, r2)

def UncheckedExtrinsic.valid (u : UncheckedExtrinsic) : Prop :=
  u.extrinsic.valid ∧ u.signature < 256 ^ 64

theorem unchecked_extrinsic_decode_encode (u : UncheckedExtrinsic) (rest : List Nat)
    (h : u.valid) : UncheckedExtrinsic.decode (u.encode ++ rest) = some (u, rest) := by
  obtain ⟨h1, h2⟩ := h
  unfold UncheckedExtrinsic.encode UncheckedExtrinsic.decode
  rw [List.append_assoc, decFixLE_encFixLE]
  simp only [List.append_assoc]
  rw [extrinsic_decode_encode u.extrinsic _ h1]
  simp only
  rw [decFixLE_encFixLE_of_lt _ _ _ h2]

theorem unchecked_extrinsic_encode_ne_nil (u : UncheckedExtrinsic) : u.encode ≠ [] := by
  unfold UncheckedExtrinsic.encode encFixLE
  simp

/-- The `Digest` from generic.rs: an ordered list of opaque log items, the
`DigestItem` parameter instantiated at byte vectors (`Vec<u8>`). -/
structure Digest where
  logs : List (List Nat)
deriving DecidableEq

/-- The `Slicable` for `Digest`: delegates to the `Vec<Item>` codec of `logs`. -/
def Digest.encode (d : Digest) : List Nat := encSeq encBytes d.logs

/-- The `Slicable::decode` for `Digest`. -/
def Digest.decode (input : List Nat) : Option (Digest × List Nat) :=
  match decSeq decBytes input with
  | none => none
  | some (logs, rest) => some (⟨logs⟩, rest)

def Digest.valid (d : Digest) : Prop :=
  (∀ l ∈ d.logs, l.length < 256 ^ 4) ∧ ((d.logs.map encBytes).flatten).length < 256 ^ 4

theorem digest_decode_encode (d : Digest) (rest : List Nat) (h : d.valid) :
    Digest.decode (d.encode ++ rest) = some (d, rest) := by
  obtain ⟨h1, h2⟩ := h
  unfold Digest.encode Digest.decode
  rw [decSeq_encSeq decBytes encBytes (fun l => l.length < 256 ^ 4)
    (fun x r hx => decBytes_encBytes x r hx) (fun x _ => encBytes_ne_nil x) d.logs h1 h2 rest]

/-- The `Header` from generic.rs: `{parent_hash, number, state_root,
extrinsics_root, digest}`, hashes 32 bytes wide and the number a u64. -/
structure Header where
  parent_hash : Nat
  number : Nat
  state_root : Nat
  extrinsics_root : Nat
  digest : Digest
deriving DecidableEq

/-- The `Slicable::encode` for `Header`: field encodings in declaration order. -/
def Header.encode (h : Header) : List Nat :=
  encFixLE 32 h.parent_hash ++ encFixLE 8 h.number ++ encFixLE 32 h.state_root ++
    encFixLE 32 h.extrinsics_root ++ h.digest.encode

/-- The `Slicable::decode` for `Header`: sequential field decode. -/
def Header.decode (input : List Nat) : Option (Header × List Nat) :=
  match decFixLE 32 input with
  | none => none
  | some (parent_hash, r1) =>
    match decFixLE 8 r1 with
    | none => none
    | some (number, r2) =>
      match decFixLE 32 r2 with
      | none => none
      | some (state_root, r3) =>
        match decFixLE 32 r3 with
        | none => none
        | some (extrinsics_root, r4) =>
          match Digest.decode r4 with
          | none => none
          | some (digest, r5) =>
            some (⟨parent_hash, number, state_root, extrinsics_root, digest⟩, r5)

def Header.valid (h : Header) : Prop :=
  h.parent_hash < 256 ^ 32 ∧ h.number < 256 ^ 8 ∧ h.state_root < 256 ^ 32 ∧
    h.extrinsics_root < 256 ^ 32 ∧ h.digest.valid

theorem header_decode_encode (h : Header) (rest : List Nat) (hv : h.valid) :
    Header.decode (h.encode ++ rest) = some (h, rest) := by
  obtain ⟨h1, h2, h3, h4, h5⟩ := hv
  unfold Header.encode Header.decode
  simp only [List.append_assoc]
  rw [decFixLE_encFixLE_of_lt _ _ _ h1]
  simp only
  rw [decFixLE_encFixLE_of_lt _ _ _ h2]
  simp only
  rw [decFixLE_encFixLE_of_lt _ _ _ h3]
  simp only
  rw [decFixLE_encFixLE_of_lt _ _ _ h4]
  simp only
  rw [digest_decode_encode h.digest rest h5]

/-- The `Block` from generic.rs: a header and an ordered sequence of unchecked
extrinsics. -/
structure Block where
  header : Header
  extrinsics : List UncheckedExtrinsic
deriving DecidableEq

/-- The `Slicable::encode` for `Block`: header encoding followed by the
`Vec<UncheckedExtrinsic>` encoding. -/
def Block.encode (b : Block) : List Nat :=
  b.header.encode ++ encSeq UncheckedExtrinsic.encode b.extrinsics

/-- The `Slicable::decode` for `Block`: header decode then extrinsics decode. -/
def Block.decode (input : List Nat) : Option (Block × List Nat) :=
  match Header.decode input with
  | none => none
  | some (header, r1) =>
    match decSeq UncheckedExtrinsic.decode r1 with
    | none => none
    | some (extrinsics, r2) => some (⟨header, extrinsics⟩, r2)

def Block.valid (b : Block) : Prop :=
  b.header.valid ∧ (∀ u ∈ b.extrinsics, u.valid) ∧
    ((b.extrinsics.map UncheckedExtrinsic.encode).flatten).length < 256 ^ 4

theorem block_decode_encode (b : Block) (rest : List Nat) (h : b.valid) :
    Block.decode (b.encode ++ rest) = some (b, rest) := by
  obtain ⟨h1, h2, h3⟩ := h
  unfold Block.encode Block.decode
  rw [List.append_assoc, header_decode_encode b.header _ h1]
  simp only
  rw [decSeq_encSeq UncheckedExtrinsic.decode UncheckedExtrinsic.encode
    UncheckedExtrinsic.valid (fun x r hx => unchecked_extrinsic_decode_encode x r hx)
    (fun x _ => unchecked_extrinsic_encode_ne_nil x) b.extrinsics h2 h3 rest]

instance (e : Extrinsic) : Decidable e.valid := by
  unfold Extrinsic.valid; infer_instance

instance (u : UncheckedExtrinsic) : Decidable u.valid := by
  unfold UncheckedExtrinsic.valid; infer_instance

instance (d : Digest) : Decidable d.valid := by
  unfold Digest.valid; infer_instance

instance (h : Header) : Decidable h.valid := by
  unfold Header.valid; infer_instance

instance (b : Block) : Decidable b.valid := by
  unfold Block.valid; infer_instance

/-- C4: for every Header, Extrinsic, UncheckedExtrinsic, Block and Digest
whose fields fit their wire widths, decoding the canonical encoding yields
the original value back with no bytes left over. -/
theorem codec_round_trip :
    (∀ h : Header, h.valid → Header.decode h.encode = some (h, [])) ∧
    (∀ e : Extrinsic, e.valid → Extrinsic.decode e.encode = some (e, [])) ∧
    (∀ u : UncheckedExtrinsic, u.valid →
      UncheckedExtrinsic.decode u.encode = some (u, [])) ∧
    (∀ b : Block, b.valid → Block.decode b.encode = some (b, [])) ∧
    (∀ d : Digest, d.valid → Digest.decode d.encode = some (d, [])) := by
  refine ⟨fun h hv => ?_, fun e hv => ?_, fun u hv => ?_, fun b hv => ?_, fun d hv => ?_⟩
  · have := header_decode_encode h [] hv; rwa [List.append_nil] at this
  · have := extrinsic_decode_encode e [] hv; rwa [List.append_nil] at this
  · have := unchecked_extrinsic_decode_encode u [] hv; rwa [List.append_nil] at this
  · have := block_decode_encode b [] hv; rwa [List.append_nil] at this
  · have := digest_decode_encode d [] hv; rwa [List.append_nil] at this

/-- Concrete evaluation of the round-trip theorem on sample values. -/
theorem codec_round_trip_w :
    Header.decode (Header.encode ⟨1, 2, 3, 4, ⟨[[7, 8]]⟩⟩) =
      some (⟨1, 2, 3, 4, ⟨[[7, 8]]⟩⟩, []) ∧
    Extrinsic.decode (Extrinsic.encode ⟨5, 6, 7⟩) = some (⟨5, 6, 7⟩, []) ∧
    UncheckedExtrinsic.decode (UncheckedExtrinsic.encode ⟨⟨5, 6, 7⟩, 9⟩) =
      some (⟨⟨5, 6, 7⟩, 9⟩, []) ∧
    Block.decode (Block.encode ⟨⟨1, 2, 3, 4, ⟨[]⟩⟩, [⟨⟨5, 6, 7⟩, 9⟩]⟩) =
      some (⟨⟨1, 2, 3, 4, ⟨[]⟩⟩, [⟨⟨5, 6, 7⟩, 9⟩]⟩, []) ∧
    Digest.decode (Digest.encode ⟨[[7, 8], []]⟩) = some (⟨[[7, 8], []]⟩, []) :=
  ⟨codec_round_trip.1 _ (by decide), codec_round_trip.2.1 _ (by decide),
   codec_round_trip.2.2.1 _ (by decide), codec_round_trip.2.2.2.1 _ (by decide),
   codec_round_trip.2.2.2.2 _ (by decide)⟩

/-- C10: `UncheckedExtrinsic::decode` reads the 32-bit length prefix but
never validates it: any two prefixes give the same decode result, and for any
input whose extrinsic and signature fields decode, decoding succeeds whatever
the prefix holds. -/
theorem unchecked_decode_ignores_length :
    (∀ n m rest, UncheckedExtrinsic.decode (encFixLE 4 n ++ rest) =
      UncheckedExtrinsic.decode (encFixLE 4 m ++ rest)) ∧
    (∀ (u : UncheckedExtrinsic) (n : Nat), u.valid →
      UncheckedExtrinsic.decode
          (encFixLE 4 n ++ (u.extrinsic.encode ++ encFixLE 64 u.signature)) =
        some (u, [])) := by
  constructor
  · intro n m rest
    unfold UncheckedExtrinsic.decode
    rw [decFixLE_encFixLE, decFixLE_encFixLE]
  · intro u n hv
    obtain ⟨h1, h2⟩ := hv
    unfold UncheckedExtrinsic.decode
    rw [decFixLE_encFixLE]
    simp only
    rw [extrinsic_decode_encode u.extrinsic _ h1]
    simp only
    have := decFixLE_encFixLE_of_lt 64 u.signature [] h2
    rw [List.append_nil] at this
    rw [this]

/-- Concrete evaluation: two different length prefixes decode alike. -/
theorem unchecked_decode_ignores_length_w :
    UncheckedExtrinsic.decode
        (encFixLE 4 0 ++ (Extrinsic.encode ⟨5, 6, 7⟩ ++ encFixLE 64 9)) =
      some (⟨⟨5, 6, 7⟩, 9⟩, []) :=
  unchecked_decode_ignores_length.2 ⟨⟨5, 6, 7⟩, 9⟩ 0 (by decide)

/-- The `CheckedExtrinsic` from generic.rs: the type-safe wrapper whose only
constructor in the source is a successful `check`. -/
structure CheckedExtrinsic where
  toUnchecked : UncheckedExtrinsic
deriving DecidableEq

/-- The `Checkable::check` for `UncheckedExtrinsic` (generic.rs): verifies the
signature over the canonical encoding of the `extrinsic` field under the
`signed` account (the `LazyEncode` wrapper in the source only delays
computing that encoding), wraps the whole extrinsic on success and returns
it unchanged as the error on failure.  `verify` abstracts
`Signature::verify(message, signer)`. -/
def UncheckedExtrinsic.check (verify : Nat → List Nat → Nat → Bool)
    (u : UncheckedExtrinsic) : Except UncheckedExtrinsic CheckedExtrinsic :=
  let sig_ok := verify u.signature u.extrinsic.encode u.extrinsic.signed
  if sig_ok then Except.ok ⟨u⟩ else Except.error u

/-- C7: `check` returns `Ok` wrapping the original extrinsic exactly when the
signature verifies against the canonical serialisation of the `extrinsic`
field under `signed`; on failure it returns `Err` carrying the original
unchanged, so a `CheckedExtrinsic` only arises from a successful
verification. -/
theorem check_spec (verify : Nat → List Nat → Nat → Bool) (u : UncheckedExtrinsic) :
    (UncheckedExtrinsic.check verify u = Except.ok ⟨u⟩ ↔
      verify u.signature u.extrinsic.encode u.extrinsic.signed = true) ∧
    (verify u.signature u.extrinsic.encode u.extrinsic.signed = false →
      UncheckedExtrinsic.check verify u = Except.error u) ∧
    (∀ c : CheckedExtrinsic, UncheckedExtrinsic.check verify u = Except.ok c →
      c.toUnchecked = u ∧
        verify u.signature u.extrinsic.encode u.extrinsic.signed = true) := by
  unfold UncheckedExtrinsic.check
  cases hv : verify u.signature u.extrinsic.encode u.extrinsic.signed <;>
    simp [hv]

/-- Concrete evaluation of `check` under an always-false and an always-true
verifier. -/
theorem check_spec_w :
    UncheckedExtrinsic.check (fun _ _ _ => false) ⟨⟨1, 2, 3⟩, 4⟩ =
        Except.error ⟨⟨1, 2, 3⟩, 4⟩ ∧
      UncheckedExtrinsic.check (fun _ _ _ => true) ⟨⟨1, 2, 3⟩, 4⟩ =
        Except.ok ⟨⟨⟨1, 2, 3⟩, 4⟩⟩ :=
  ⟨(check_spec (fun _ _ _ => false) ⟨⟨1, 2, 3⟩, 4⟩).2.1 rfl,
   (check_spec (fun _ _ _ => true) ⟨⟨1, 2, 3⟩, 4⟩).1.mpr rfl⟩

/-- The `error::ErrorKind` variants of the client crate used by the core. -/
inductive ErrorKind
  | Backend
  | Execution
  | AuthLenEmpty
  | AuthLenInvalid
  | AuthEmpty (i : Nat)
  | AuthInvalid (i : Nat)
  | NoValueForKey (key : List Nat)
  | BadJustification
deriving DecidableEq

/-- The `ImportResult` from src/substrate/client/src/client.rs. -/
inductive ImportResult
  | Queued
  | AlreadyQueued
  | AlreadyInChain
  | KnownBad
  | UnknownParent
deriving DecidableEq

/-- The `blockchain::BlockStatus` as consumed by `import_block` (the blockchain
index reports a parent as in-chain or unknown). -/
inductive ChainStatus
  | InChain
  | Unknown
deriving DecidableEq

/-- The `BlockOrigin` from client.rs. -/
inductive BlockOrigin
  | Genesis
  | NetworkInitialSync
  | NetworkBroadcast
  | ConsensusBroadcast
  | Own
  | File
deriving DecidableEq

/-- The `BlockId` from generic.rs: address a block by hash or by number. -/
inductive BlockId
  | Hash (h : Nat)
  | Number (n : Nat)
deriving DecidableEq

/-- The `BlockImportNotification` from client.rs. -/
structure BlockImportNotification where
  hash : Nat
  origin : BlockOrigin
  header : Header
  is_new_best : Bool
deriving DecidableEq

/-- One subscriber channel: the send-end kept in
`import_notification_sinks`.  `closed` models a dropped receive-end (on
which `unbounded_send` fails); `queue` is the sequence of notifications
delivered so far. -/
structure Sink where
  closed : Bool
  queue : List BlockImportNotification
deriving DecidableEq

/-- The `JustifiedHeader` from client.rs: a header paired with an
already-checked justification; the justification is carried as the byte
string `justification.uncheck().into()` eventually handed to the backend. -/
structure JustifiedHeader where
  header : Header
  justification : List Nat
deriving DecidableEq

/-- The `OverlayedChanges`: the in-memory diff of pending writes
(key to Some(bytes) or None entries). -/
abbrev Overlay := List (List Nat × Option (List Nat))

/-- Result of the execution bridge `state_machine::execute`: the raw return
buffer, the storage delta handed to `update_storage`, and the overlay after
the call (the `&mut` overlay argument as mutated). -/
structure ExecOutcome where
  return_data : List Nat
  storage_update : Overlay
  overlay_after : Overlay
deriving DecidableEq

/-- Which state a bridge execution runs against: `state_at(id)` for
read-only calls, or the state attached to a write operation anchored at a
parent hash for imports. -/
inductive ExecSource
  | at_block (id : BlockId)
  | operation (parent_hash : Nat)
deriving DecidableEq

/-- The environment of oracles `Client` methods consume: the blockchain
index, the backend transaction surface, the execution bridge
(`state_machine::execute` with the `CodeExecutor`), and the header hash.
Each fallible collaborator returns `Except ErrorKind`. -/
structure ClientEnv where
  status : Nat → Except ErrorKind ChainStatus
  begin_operation : Nat → Except ErrorKind Unit
  execute : ExecSource → Overlay → String → List Nat → Except ErrorKind ExecOutcome
  best_number : Except ErrorKind Nat
  set_block_data : Header → Option (List UncheckedExtrinsic) → List Nat → Bool →
    Except ErrorKind Unit
  update_storage : Overlay → Except ErrorKind Unit
  commit_operation : Except ErrorKind Unit
  header_hash : Header → Nat
  hash : Nat → Except ErrorKind (Option Nat)

/-- The notification fan-out from `import_block`:
`sinks.retain(|sink| !sink.unbounded_send(notification.clone()).is_err())` —
each live subscriber receives a clone of the notification, and subscribers
whose receive-end is closed are removed in the same pass. -/
def fanOut : List Sink → BlockImportNotification → List Sink
  | [], _ => []
  | s :: rest, n =>
    if s.closed then fanOut rest n
    else { s with queue := s.queue ++ [n] } :: fanOut rest n

/-- What a successful `commit_operation` persisted: the arguments of
`set_block_data` plus the storage delta of `update_storage`. -/
structure CommitData where
  header : Header
  body : Option (List UncheckedExtrinsic)
  justification : List Nat
  is_new_best : Bool
  storage_update : Overlay
deriving DecidableEq

/-- Observable footprint of one `import_block` call: whether a backend
operation was opened, what was committed (none when nothing was), and the
subscriber list after the call. -/
structure ImportEffects where
  opened_operation : Bool
  committed : Option CommitData
  sinks_after : List Sink
deriving DecidableEq

/-- The `Client::import_block` from client.rs: parent status lookup, backend
operation, `execute_block` on the serialised block (absent body treated as
empty), best-number classification, commit, then subscriber fan-out for
broadcast-like origins.  Every `?` in the source is a propagating match on
`Except.error`. -/
def import_block (env : ClientEnv) (sinks : List Sink) (origin : BlockOrigin)
    (jheader : JustifiedHeader) (body : Option (List UncheckedExtrinsic)) :
    Except ErrorKind (ImportResult × ImportEffects) :=
  let header := jheader.header
  let justification := jheader.justification
  let parent_hash := header.parent_hash
  match env.status parent_hash with
  | Except.error e => Except.error e
  | Except.ok ChainStatus.Unknown =>
      Except.ok (ImportResult.UnknownParent, ⟨false, none, sinks⟩)
  | Except.ok ChainStatus.InChain =>
    match env.begin_operation parent_hash with
    | Except.error e => Except.error e
    | Except.ok _ =>
      match env.execute (ExecSource.operation parent_hash) []
          "execute_block" (Block.encode ⟨header, body.getD []⟩) with
      | Except.error e => Except.error e
      | Except.ok oc =>
        match env.best_number with
        | Except.error e => Except.error e
        | Except.ok best =>
          let is_new_best := header.number == best + 1
          let hash := env.header_hash header
          match env.set_block_data header body justification is_new_best with
          | Except.error e => Except.error e
          | Except.ok _ =>
            match env.update_storage oc.storage_update with
            | Except.error e => Except.error e
            | Except.ok _ =>
              match env.commit_operation with
              | Except.error e => Except.error e
              | Except.ok _ =>
                let sinks_after :=
                  if origin = BlockOrigin.NetworkBroadcast ∨ origin = BlockOrigin.Own ∨
                      origin = BlockOrigin.ConsensusBroadcast then
                    fanOut sinks ⟨hash, origin, header, is_new_best⟩
                  else sinks
                Except.ok (ImportResult.Queued,
                  ⟨true, some ⟨header, body, justification, is_new_best, oc.storage_update⟩,
                    sinks_after⟩)

/-- The `CallResult` from client.rs: return buffer plus the overlay of would-be
writes. -/
structure CallResult where
  return_data : List Nat
  changes : Overlay
deriving DecidableEq

/-- The `Client::call` from client.rs: runs the execution bridge against
`state_at(id)` with a fresh default overlay and wraps the return buffer and
the overlay; no backend operation and no commit take place. -/
def call (env : ClientEnv) (id : BlockId) (method : String) (call_data : List Nat) :
    Except ErrorKind CallResult :=
  match env.execute (ExecSource.at_block id) [] method call_data with
  | Except.error e => Except.error e
  | Except.ok oc => Except.ok ⟨oc.return_data, oc.overlay_after⟩

/-- The `Client::block_hash` from client.rs: delegate to the blockchain index. -/
def block_hash (env : ClientEnv) (block_number : Nat) : Except ErrorKind (Option Nat) :=
  env.hash block_number

/-- The `Client::block_hash_from_id` from client.rs. -/
def block_hash_from_id (env : ClientEnv) : BlockId → Except ErrorKind (Option Nat)
  | BlockId.Hash h => Except.ok (some h)
  | BlockId.Number n => block_hash env n

theorem fanOut_eq (sinks : List Sink) (n : BlockImportNotification) :
    fanOut sinks n = (sinks.filter (fun s => !s.closed)).map
      (fun s => { s with queue := s.queue ++ [n] }) := by
  induction sinks with
  | nil => rfl
  | cons s rest ih =>
    by_cases hc : s.closed <;> simp [fanOut, hc, ih, List.filter_cons]

theorem import_block_success_eq (env : ClientEnv) (sinks : List Sink)
    (origin : BlockOrigin) (jheader : JustifiedHeader)
    (body : Option (List UncheckedExtrinsic)) (oc : ExecOutcome) (best : Nat)
    (hs : env.status jheader.header.parent_hash = Except.ok ChainStatus.InChain)
    (hb : env.begin_operation jheader.header.parent_hash = Except.ok ())
    (he : env.execute (ExecSource.operation jheader.header.parent_hash) []
      "execute_block" (Block.encode ⟨jheader.header, body.getD []⟩) = Except.ok oc)
    (hn : env.best_number = Except.ok best)
    (hd : env.set_block_data jheader.header body jheader.justification
      (jheader.header.number == best + 1) = Except.ok ())
    (hu : env.update_storage oc.storage_update = Except.ok ())
    (hc : env.commit_operation = Except.ok ()) :
    import_block env sinks origin jheader body =
      Except.ok (ImportResult.Queued,
        ⟨true,
         some ⟨jheader.header, body, jheader.justification,
           jheader.header.number == best + 1, oc.storage_update⟩,
         if origin = BlockOrigin.NetworkBroadcast ∨ origin = BlockOrigin.Own ∨
             origin = BlockOrigin.ConsensusBroadcast then
           fanOut sinks ⟨env.header_hash jheader.header, origin, jheader.header,
             jheader.header.number == best + 1⟩
         else sinks⟩) := by
  simp only [import_block, hs, hb, he, hn, hd, hu, hc]

/-- C1: when the blockchain index reports the parent hash as Unknown,
`import_block` returns `UnknownParent` without opening a backend operation,
without committing anything, and without touching the subscriber list. -/
theorem import_block_unknown_parent (env : ClientEnv) (sinks : List Sink)
    (origin : BlockOrigin) (jheader : JustifiedHeader)
    (body : Option (List UncheckedExtrinsic))
    (h : env.status jheader.header.parent_hash = Except.ok ChainStatus.Unknown) :
    import_block env sinks origin jheader body =
      Except.ok (ImportResult.UnknownParent, ⟨false, none, sinks⟩) := by
  simp only [import_block, h]

/-- A concrete oracle environment for evaluating the client theorems: hash 0
is the only in-chain block, every collaborator succeeds. -/
def testEnv : ClientEnv where
  status := fun h =>
    if h = 0 then Except.ok ChainStatus.InChain else Except.ok ChainStatus.Unknown
  begin_operation := fun _ => Except.ok ()
  execute := fun _ _ _ _ => Except.ok ⟨[1], [([2], some [3])], [([2], some [3])]⟩
  best_number := Except.ok 0
  set_block_data := fun _ _ _ _ => Except.ok ()
  update_storage := fun _ => Except.ok ()
  commit_operation := Except.ok ()
  header_hash := fun h => h.number
  hash := fun n => if n = 0 then Except.ok (some 5) else Except.ok none

/-- Like `testEnv` but the execution bridge rejects every call. -/
def failEnv : ClientEnv :=
  { testEnv with execute := fun _ _ _ _ => Except.error ErrorKind.Execution }

/-- A child of the in-chain block 0. -/
def testJH : JustifiedHeader := ⟨⟨0, 1, 0, 0, ⟨[]⟩⟩, []⟩

/-- A block whose parent hash 1 is not in the index. -/
def orphanJH : JustifiedHeader := ⟨⟨1, 1, 0, 0, ⟨[]⟩⟩, []⟩

/-- Concrete evaluation: importing a block with an unknown parent. -/
theorem import_block_unknown_parent_w :
    import_block testEnv [Sink.mk false []] BlockOrigin.Own orphanJH none =
      Except.ok (ImportResult.UnknownParent, ⟨false, none, [Sink.mk false []]⟩) :=
  import_block_unknown_parent testEnv [Sink.mk false []] BlockOrigin.Own orphanJH none rfl

/-- C2: on the successful import path the block is flagged new best exactly
when the header's number equals the chain's best number plus one, and the
flag is false for any other number. -/
theorem import_block_is_new_best (env : ClientEnv) (sinks : List Sink)
    (origin : BlockOrigin) (jheader : JustifiedHeader)
    (body : Option (List UncheckedExtrinsic)) (oc : ExecOutcome) (best : Nat)
    (hs : env.status jheader.header.parent_hash = Except.ok ChainStatus.InChain)
    (hb : env.begin_operation jheader.header.parent_hash = Except.ok ())
    (he : env.execute (ExecSource.operation jheader.header.parent_hash) []
      "execute_block" (Block.encode ⟨jheader.header, body.getD []⟩) = Except.ok oc)
    (hn : env.best_number = Except.ok best)
    (hd : env.set_block_data jheader.header body jheader.justification
      (jheader.header.number == best + 1) = Except.ok ())
    (hu : env.update_storage oc.storage_update = Except.ok ())
    (hc : env.commit_operation = Except.ok ()) :
    ∃ (eff : ImportEffects) (cd : CommitData), import_block env sinks origin jheader body =
        Except.ok (ImportResult.Queued, eff) ∧
      eff.committed = some cd ∧
      cd.is_new_best = (jheader.header.number == best + 1) ∧
      (jheader.header.number ≠ best + 1 → cd.is_new_best = false) := by
  refine ⟨_, _, import_block_success_eq env sinks origin jheader body oc best
    hs hb he hn hd hu hc, rfl, rfl, fun hne => ?_⟩
  exact beq_eq_false_iff_ne.mpr hne

/-- Concrete evaluation: height-1 child of best number 0 is flagged best. -/
theorem import_block_is_new_best_w :
    ∃ (eff : ImportEffects) (cd : CommitData), import_block testEnv [] BlockOrigin.Own testJH none =
        Except.ok (ImportResult.Queued, eff) ∧
      eff.committed = some cd ∧
      cd.is_new_best = (testJH.header.number == 0 + 1) ∧
      (testJH.header.number ≠ 0 + 1 → cd.is_new_best = false) :=
  import_block_is_new_best testEnv [] BlockOrigin.Own testJH none
    ⟨[1], [([2], some [3])], [([2], some [3])]⟩ 0 rfl rfl rfl rfl rfl rfl rfl

/-- C3: after a successful commit the notification is fanned out exactly for
origins NetworkBroadcast, Own, ConsensusBroadcast: every live subscriber
gets one clone appended and closed subscribers are dropped in the same pass;
for Genesis, NetworkInitialSync and File the subscriber list is untouched. -/
theorem import_block_notifications (env : ClientEnv) (sinks : List Sink)
    (origin : BlockOrigin) (jheader : JustifiedHeader)
    (body : Option (List UncheckedExtrinsic)) (oc : ExecOutcome) (best : Nat)
    (hs : env.status jheader.header.parent_hash = Except.ok ChainStatus.InChain)
    (hb : env.begin_operation jheader.header.parent_hash = Except.ok ())
    (he : env.execute (ExecSource.operation jheader.header.parent_hash) []
      "execute_block" (Block.encode ⟨jheader.header, body.getD []⟩) = Except.ok oc)
    (hn : env.best_number = Except.ok best)
    (hd : env.set_block_data jheader.header body jheader.justification
      (jheader.header.number == best + 1) = Except.ok ())
    (hu : env.update_storage oc.storage_update = Except.ok ())
    (hc : env.commit_operation = Except.ok ()) :
    ∃ eff : ImportEffects, import_block env sinks origin jheader body =
        Except.ok (ImportResult.Queued, eff) ∧
      ((origin = BlockOrigin.NetworkBroadcast ∨ origin = BlockOrigin.Own ∨
          origin = BlockOrigin.ConsensusBroadcast) →
        eff.sinks_after = (sinks.filter (fun s => !s.closed)).map
          (fun s => { s with queue := s.queue ++
            [⟨env.header_hash jheader.header, origin, jheader.header,
              jheader.header.number == best + 1⟩] })) ∧
      ((origin = BlockOrigin.Genesis ∨ origin = BlockOrigin.NetworkInitialSync ∨
          origin = BlockOrigin.File) →
        eff.sinks_after = sinks) := by
  refine ⟨_, import_block_success_eq env sinks origin jheader body oc best
    hs hb he hn hd hu hc, fun ho => ?_, fun ho => ?_⟩
  · simp only [if_pos ho]
    exact fanOut_eq sinks _
  · rcases ho with rfl | rfl | rfl <;> rfl

/-- One open and one closed subscriber. -/
def testSinks : List Sink := [⟨false, []⟩, ⟨true, []⟩]

/-- Concrete evaluation: an Own-origin import notifies the open subscriber
and prunes the closed one; a File-origin import notifies nobody. -/
theorem import_block_notifications_w :
    (∃ eff : ImportEffects, import_block testEnv testSinks BlockOrigin.Own testJH none =
        Except.ok (ImportResult.Queued, eff) ∧
      ((BlockOrigin.Own = BlockOrigin.NetworkBroadcast ∨
          BlockOrigin.Own = BlockOrigin.Own ∨
          BlockOrigin.Own = BlockOrigin.ConsensusBroadcast) →
        eff.sinks_after = (testSinks.filter (fun s => !s.closed)).map
          (fun s => { s with queue := s.queue ++
            [⟨testEnv.header_hash testJH.header, BlockOrigin.Own, testJH.header,
              testJH.header.number == 0 + 1⟩] })) ∧
      ((BlockOrigin.Own = BlockOrigin.Genesis ∨
          BlockOrigin.Own = BlockOrigin.NetworkInitialSync ∨
          BlockOrigin.Own = BlockOrigin.File) →
        eff.sinks_after = testSinks)) :=
  import_block_notifications testEnv testSinks BlockOrigin.Own testJH none
    ⟨[1], [([2], some [3])], [([2], some [3])]⟩ 0 rfl rfl rfl rfl rfl rfl rfl

/-- C5: `import_block` only ever returns `UnknownParent` or `Queued`
(never AlreadyQueued, AlreadyInChain or KnownBad), and a fault of any
collaborator — index lookup, operation open, execution, info, set-data,
storage update or commit — is propagated to the caller as that error. -/
theorem import_block_result_values (env : ClientEnv) (sinks : List Sink)
    (origin : BlockOrigin) (jheader : JustifiedHeader)
    (body : Option (List UncheckedExtrinsic)) :
    (∀ r eff, import_block env sinks origin jheader body = Except.ok (r, eff) →
      r = ImportResult.UnknownParent ∨ r = ImportResult.Queued) ∧
    (∀ e, env.status jheader.header.parent_hash = Except.error e →
      import_block env sinks origin jheader body = Except.error e) ∧
    (∀ e, env.status jheader.header.parent_hash = Except.ok ChainStatus.InChain →
      env.begin_operation jheader.header.parent_hash = Except.error e →
      import_block env sinks origin jheader body = Except.error e) ∧
    (∀ e, env.status jheader.header.parent_hash = Except.ok ChainStatus.InChain →
      env.begin_operation jheader.header.parent_hash = Except.ok () →
      env.execute (ExecSource.operation jheader.header.parent_hash) []
        "execute_block" (Block.encode ⟨jheader.header, body.getD []⟩) =
        Except.error e →
      import_block env sinks origin jheader body = Except.error e) ∧
    (∀ e oc, env.status jheader.header.parent_hash = Except.ok ChainStatus.InChain →
      env.begin_operation jheader.header.parent_hash = Except.ok () →
      env.execute (ExecSource.operation jheader.header.parent_hash) []
        "execute_block" (Block.encode ⟨jheader.header, body.getD []⟩) =
        Except.ok oc →
      env.best_number = Except.error e →
      import_block env sinks origin jheader body = Except.error e) ∧
    (∀ e oc best, env.status jheader.header.parent_hash = Except.ok ChainStatus.InChain →
      env.begin_operation jheader.header.parent_hash = Except.ok () →
      env.execute (ExecSource.operation jheader.header.parent_hash) []
        "execute_block" (Block.encode ⟨jheader.header, body.getD []⟩) =
        Except.ok oc →
      env.best_number = Except.ok best →
      env.set_block_data jheader.header body jheader.justification
        (jheader.header.number == best + 1) = Except.error e →
      import_block env sinks origin jheader body = Except.error e) ∧
    (∀ e oc best, env.status jheader.header.parent_hash = Except.ok ChainStatus.InChain →
      env.begin_operation jheader.header.parent_hash = Except.ok () →
      env.execute (ExecSource.operation jheader.header.parent_hash) []
        "execute_block" (Block.encode ⟨jheader.header, body.getD []⟩) =
        Except.ok oc →
      env.best_number = Except.ok best →
      env.set_block_data jheader.header body jheader.justification
        (jheader.header.number == best + 1) = Except.ok () →
      env.update_storage oc.storage_update = Except.error e →
      import_block env sinks origin jheader body = Except.error e) ∧
    (∀ e oc best, env.status jheader.header.parent_hash = Except.ok ChainStatus.InChain →
      env.begin_operation jheader.header.parent_hash = Except.ok () →
      env.execute (ExecSource.operation jheader.header.parent_hash) []
        "execute_block" (Block.encode ⟨jheader.header, body.getD []⟩) =
        Except.ok oc →
      env.best_number = Except.ok best →
      env.set_block_data jheader.header body jheader.justification
        (jheader.header.number == best + 1) = Except.ok () →
      env.update_storage oc.storage_update = Except.ok () →
      env.commit_operation = Except.error e →
      import_block env sinks origin jheader body = Except.error e) := by
  refine ⟨?_, ?_, ?_, ?_, ?_, ?_, ?_, ?_⟩
  · intro r eff h
    simp only [import_block] at h
    cases hs : env.status jheader.header.parent_hash with
    | error e => simp only [hs] at h; simp at h
    | ok st =>
      cases st with
      | Unknown =>
        simp only [hs] at h
        simp at h
        exact Or.inl (by tauto)
      | InChain =>
        simp only [hs] at h
        cases hb : env.begin_operation jheader.header.parent_hash with
        | error e => simp only [hb] at h; simp at h
        | ok u =>
          simp only [hb] at h
          cases he : env.execute (ExecSource.operation jheader.header.parent_hash) []
              "execute_block" (Block.encode ⟨jheader.header, body.getD []⟩) with
          | error e => simp only [he] at h; simp at h
          | ok oc =>
            simp only [he] at h
            cases hn : env.best_number with
            | error e => simp only [hn] at h; simp at h
            | ok best =>
              simp only [hn] at h
              cases hd : env.set_block_data jheader.header body jheader.justification
                  (jheader.header.number == best + 1) with
              | error e => simp only [hd] at h; simp at h
              | ok u2 =>
                simp only [hd] at h
                cases hu : env.update_storage oc.storage_update with
                | error e => simp only [hu] at h; simp at h
                | ok u3 =>
                  simp only [hu] at h
                  cases hc : env.commit_operation with
                  | error e => simp only [hc] at h; simp at h
                  | ok u4 =>
                    simp only [hc] at h
                    simp at h
                    exact Or.inr (by tauto)
  · intro e h; simp only [import_block, h]
  · intro e h1 h2; simp only [import_block, h1, h2]
  · intro e h1 h2 h3; simp only [import_block, h1, h2, h3]
  · intro e oc h1 h2 h3 h4; simp only [import_block, h1, h2, h3, h4]
  · intro e oc best h1 h2 h3 h4 h5; simp only [import_block, h1, h2, h3, h4, h5]
  · intro e oc best h1 h2 h3 h4 h5 h6; simp only [import_block, h1, h2, h3, h4, h5, h6]
  · intro e oc best h1 h2 h3 h4 h5 h6 h7
    simp only [import_block, h1, h2, h3, h4, h5, h6, h7]

/-- Concrete evaluation: a successful import returns Queued, and an
execution fault surfaces as the error itself. -/
def testCommit : CommitData := ⟨⟨0, 1, 0, 0, ⟨[]⟩⟩, none, [], true, [([2], some [3])]⟩

def testEffects : ImportEffects := ⟨true, some testCommit, []⟩

theorem import_block_result_values_w :
    (ImportResult.Queued = ImportResult.UnknownParent ∨
      ImportResult.Queued = ImportResult.Queued) ∧
    import_block failEnv [] BlockOrigin.Own testJH none =
      Except.error ErrorKind.Execution :=
  ⟨(import_block_result_values testEnv [] BlockOrigin.Own testJH none).1
      ImportResult.Queued testEffects rfl,
   (import_block_result_values failEnv [] BlockOrigin.Own testJH none).2.2.2.1
      ErrorKind.Execution rfl rfl rfl⟩

/-- C8: `call` runs the execution bridge at the addressed block with a fresh
default overlay and returns the bridge's return buffer paired with the
overlay of would-be writes; it consults nothing but the execution bridge, so
no backend operation, commit or notification can occur. -/
theorem call_spec (env other : ClientEnv) (id : BlockId) (method : String)
    (call_data : List Nat) :
    call env id method call_data =
      (env.execute (ExecSource.at_block id) [] method call_data).map
        (fun oc => ⟨oc.return_data, oc.overlay_after⟩) ∧
    (env.execute = other.execute →
      call env id method call_data = call other id method call_data) := by
  constructor
  · unfold call
    cases env.execute (ExecSource.at_block id) [] method call_data <;> rfl
  · intro h
    unfold call
    rw [h]

/-- Concrete evaluation of `call` against the test environment. -/
theorem call_spec_w :
    call testEnv (BlockId.Number 0) "foo" [] =
      (testEnv.execute (ExecSource.at_block (BlockId.Number 0)) [] "foo" []).map
        (fun oc => ⟨oc.return_data, oc.overlay_after⟩) ∧
    call testEnv (BlockId.Number 0) "foo" [] =
      call testEnv (BlockId.Number 0) "foo" [] :=
  ⟨(call_spec testEnv testEnv (BlockId.Number 0) "foo" []).1,
   (call_spec testEnv testEnv (BlockId.Number 0) "foo" []).2 rfl⟩

/-- C9: `block_hash_from_id` answers a hash-addressed query as
`Ok(Some(h))` for every environment — so no blockchain index is consulted
and the answer does not depend on whether any block with that hash exists —
while only the number-addressed form delegates to the index lookup, which
may return None. -/
theorem block_hash_from_id_spec :
    (∀ (env : ClientEnv) (h : Nat),
      block_hash_from_id env (BlockId.Hash h) = Except.ok (some h)) ∧
    (∀ (env other : ClientEnv) (h : Nat),
      block_hash_from_id env (BlockId.Hash h) =
        block_hash_from_id other (BlockId.Hash h)) ∧
    (∀ (env : ClientEnv) (n : Nat),
      block_hash_from_id env (BlockId.Number n) = env.hash n) :=
  ⟨fun _ _ => rfl, fun _ _ _ => rfl, fun _ _ => rfl⟩

/-- A point-in-time state view as delivered by `state_at`: key bytes to
optional value bytes, with an opaque backend error channel. -/
abbrev StateView := List Nat → Except Unit (Option (List Nat))

/-- The `u32::decode(&mut s.as_slice())`: reads the first four bytes of `s`
little-endian, ignoring any trailing bytes; fails when `s` is shorter. -/
def decodeU32 (s : List Nat) : Option Nat := (decFixLE 4 s).map Prod.fst

/-- The `AuthorityId::decode(&mut s.as_slice())`: an AuthorityId is a raw
32-byte value; reads the first 32 bytes, ignoring any trailing bytes. -/
def decodeAuthorityId (s : List Nat) : Option Nat := (decFixLE 32 s).map Prod.fst

/-- The ASCII bytes of the storage key `":auth:len"`. -/
def authLenKey : List Nat := [58, 97, 117, 116, 104, 58, 108, 101, 110]

/-- The ASCII bytes of `":auth:"`. -/
def authKeyBase : List Nat := [58, 97, 117, 116, 104, 58]

/-- The `i.to_keyed_vec(prepend)` from the codec crate: the prepend bytes
followed by the (u32 little-endian) encoding of `i`. -/
def to_keyed_vec (prepend : List Nat) (i : Nat) : List Nat := prepend ++ encFixLE 4 i

/-- The per-index body of the `(0..len).map(...)` closure in
`Client::authorities_at`: read `":auth:" ++ LE32(i)`, mapping a backend
fault to `Backend`, an absent entry to `AuthEmpty(i)` and an undecodable
entry to `AuthInvalid(i)`. -/
def authority_at (state : StateView) (i : Nat) : Except ErrorKind Nat :=
  match state (to_keyed_vec authKeyBase i) with
  | Except.error _ => Except.error ErrorKind.Backend
  | Except.ok none => Except.error (ErrorKind.AuthEmpty i)
  | Except.ok (some s) =>
    match decodeAuthorityId s with
    | none => Except.error (ErrorKind.AuthInvalid i)
    | some a => Except.ok a

/-- The `collect::<Result<_>>` over the range `[i, i + count)`: index order,
first error wins. -/
def authorities_from (state : StateView) (i : Nat) : Nat → Except ErrorKind (List Nat)
  | 0 => Except.ok []
  | c + 1 =>
    match authority_at state i with
    | Except.error e => Except.error e
    | Except.ok a =>
      match authorities_from state (i + 1) c with
      | Except.error e => Except.error e
      | Except.ok rest => Except.ok (a :: rest)

/-- The `Client::authorities_at` from client.rs (the `state_at` acquisition is
the supplied view): read and decode `":auth:len"` as a little-endian u32
count, then collect the authorities at indices `[0, len)`. -/
def authorities_at (state : StateView) : Except ErrorKind (List Nat) :=
  match state authLenKey with
  | Except.error _ => Except.error ErrorKind.Backend
  | Except.ok none => Except.error ErrorKind.AuthLenEmpty
  | Except.ok (some bytes) =>
    match decodeU32 bytes with
    | none => Except.error ErrorKind.AuthLenInvalid
    | some len => authorities_from state 0 len

theorem authority_at_ok (state : StateView) (i : Nat) (v : List Nat) (a0 : Nat)
    (h1 : state (to_keyed_vec authKeyBase i) = Except.ok (some v))
    (h2 : decodeAuthorityId v = some a0) :
    authority_at state i = Except.ok a0 := by
  unfold authority_at
  rw [h1]
  simp only
  rw [h2]

theorem authorities_from_ok (state : StateView) (a : Nat → Nat) :
    ∀ c i, (∀ j, j < c → authority_at state (i + j) = Except.ok (a (i + j))) →
      authorities_from state i c = Except.ok ((List.range' i c).map a) := by
  intro c
  induction c with
  | zero => intro i _; rfl
  | succ c ih =>
    intro i hj
    have h0 : authority_at state i = Except.ok (a i) := by
      have h := hj 0 (Nat.succ_pos c)
      rwa [Nat.add_zero] at h
    have hrec := ih (i + 1) (fun j hjc => by
      have h := hj (j + 1) (Nat.succ_lt_succ hjc)
      rwa [show i + (j + 1) = i + 1 + j by omega] at h)
    unfold authorities_from
    rw [h0, hrec, List.range'_succ]
    rfl

theorem authorities_from_error (state : StateView) (e : ErrorKind) :
    ∀ c i k, k < c →
      (∀ j, j < k → ∃ aj, authority_at state (i + j) = Except.ok aj) →
      authority_at state (i + k) = Except.error e →
      authorities_from state i c = Except.error e := by
  intro c
  induction c with
  | zero => intro i k hk; omega
  | succ c ih =>
    intro i k hk hpre hk2
    cases k with
    | zero =>
      unfold authorities_from
      rw [show i + 0 = i from rfl] at hk2
      rw [hk2]
    | succ k =>
      obtain ⟨a0, h0⟩ := hpre 0 (Nat.succ_pos k)
      rw [show i + 0 = i from rfl] at h0
      unfold authorities_from
      rw [h0]
      have hrec := ih (i + 1) k (Nat.lt_of_succ_lt_succ hk)
        (fun j hjk => by
          have h := hpre (j + 1) (Nat.succ_lt_succ hjk)
          rwa [show i + (j + 1) = i + 1 + j by omega] at h)
        (by
          have h := hk2
          rwa [show i + (k + 1) = i + 1 + k by omega] at h)
      rw [hrec]

/-- C6: `authorities_at` reads `":auth:len"` and decodes it as a
little-endian 32-bit count, failing with AuthLenEmpty when the key is
absent and AuthLenInvalid when it does not decode; then for each
`i ∈ [0, len)` it reads `":auth:" ++ LE32(i)`, failing with AuthEmpty(i)
when the entry is absent and AuthInvalid(i) when it does not decode, and on
success returns the decoded authorities in index order. -/
theorem authorities_at_spec (state : StateView) :
    (state authLenKey = Except.ok none →
      authorities_at state = Except.error ErrorKind.AuthLenEmpty) ∧
    (∀ bytes, state authLenKey = Except.ok (some bytes) → decodeU32 bytes = none →
      authorities_at state = Except.error ErrorKind.AuthLenInvalid) ∧
    (∀ bytes len, state authLenKey = Except.ok (some bytes) →
      decodeU32 bytes = some len →
      ((∀ a : Nat → Nat,
        (∀ i, i < len → ∃ v, state (to_keyed_vec authKeyBase i) = Except.ok (some v) ∧
          decodeAuthorityId v = some (a i)) →
        authorities_at state = Except.ok ((List.range len).map a)) ∧
      (∀ i, i < len →
        (∀ j, j < i → ∃ v aj, state (to_keyed_vec authKeyBase j) = Except.ok (some v) ∧
          decodeAuthorityId v = some aj) →
        state (to_keyed_vec authKeyBase i) = Except.ok none →
        authorities_at state = Except.error (ErrorKind.AuthEmpty i)) ∧
      (∀ i v, i < len →
        (∀ j, j < i → ∃ vj aj, state (to_keyed_vec authKeyBase j) = Except.ok (some vj) ∧
          decodeAuthorityId vj = some aj) →
        state (to_keyed_vec authKeyBase i) = Except.ok (some v) →
        decodeAuthorityId v = none →
        authorities_at state = Except.error (ErrorKind.AuthInvalid i)))) := by
  refine ⟨fun h => ?_, fun bytes h1 h2 => ?_, fun bytes len h1 h2 => ⟨?_, ?_, ?_⟩⟩
  · simp only [authorities_at, h]
  · simp only [authorities_at, h1, h2]
  · intro a ha
    simp only [authorities_at, h1, h2]
    rw [List.range_eq_range']
    exact authorities_from_ok state a len 0 (fun j hj => by
      rw [Nat.zero_add]
      obtain ⟨v, hv1, hv2⟩ := ha j hj
      exact authority_at_ok state j v (a j) hv1 hv2)
  · intro i hi hpre hiempty
    simp only [authorities_at, h1, h2]
    refine authorities_from_error state (ErrorKind.AuthEmpty i) len 0 i hi
      (fun j hj => ?_) ?_
    · obtain ⟨v, aj, hv1, hv2⟩ := hpre j hj
      refine ⟨aj, ?_⟩
      rw [Nat.zero_add]
      exact authority_at_ok state j v aj hv1 hv2
    · simp only [Nat.zero_add]
      unfold authority_at
      rw [hiempty]
  · intro i v hi hpre hisome hibad
    simp only [authorities_at, h1, h2]
    refine authorities_from_error state (ErrorKind.AuthInvalid i) len 0 i hi
      (fun j hj => ?_) ?_
    · obtain ⟨vj, aj, hv1, hv2⟩ := hpre j hj
      refine ⟨aj, ?_⟩
      rw [Nat.zero_add]
      exact authority_at_ok state j vj aj hv1 hv2
    · simp only [Nat.zero_add]
      unfold authority_at
      rw [hisome]
      simp only
      rw [hibad]

/-- A concrete state view holding a two-entry authority set. -/
def testState : StateView := fun key =>
  if key = authLenKey then Except.ok (some (encFixLE 4 2))
  else if key = to_keyed_vec authKeyBase 0 then Except.ok (some (encFixLE 32 11))
  else if key = to_keyed_vec authKeyBase 1 then Except.ok (some (encFixLE 32 22))
  else Except.ok none

/-- Concrete evaluation: both authorities decoded in index order. -/
theorem authorities_at_spec_w :
    authorities_at testState =
      Except.ok ((List.range 2).map fun i => if i = 0 then 11 else 22) :=
  ((authorities_at_spec testState).2.2 (encFixLE 4 2) 2 rfl (by decide)).1
    (fun i => if i = 0 then 11 else 22)
    (fun i hi => by
      interval_cases i
      · exact ⟨encFixLE 32 11, rfl, by decide⟩
      · exact ⟨encFixLE 32 22, rfl, by decide⟩)
